import Mathlib

/-!
Verification of the `metalRough` transform of glTF-Transform: conversion of the
`KHR_materials_pbrSpecularGlossiness` PBR workflow to the metal/rough workflow
using the `KHR_materials_ior` and `KHR_materials_specular` extensions.

The scene graph (materials, textures, extension records, the document's list of
declared extensions) is embedded as explicit state; the converter is a pure
function on documents.  Texture pixels are modelled as functions from
coordinates and channel index to an integer channel value; factors are
rationals.
-/

namespace MetalRough

/-- A pixel: four channels (0 = R, 1 = G, 2 = B, 3 = A), each a channel value. -/
abbrev Pixel := Fin 4 → ℤ

/-- A texture image: dimensions plus a pixel grid accessed by (column, row). -/
structure Image where
  width : ℕ
  height : ℕ
  px : ℕ → ℕ → Pixel

/-- A texture owns a pixel buffer. -/
structure Texture where
  image : Image

/-- A texture binding on a material slot: the referenced texture (by arena id),
the texture-coordinate-set index, and the sampler settings (abstracted). -/
structure TexBinding where
  tex : ℕ
  texCoord : ℕ
  sampler : ℕ
deriving DecidableEq

/-- The per-material `KHR_materials_pbrSpecularGlossiness` record. -/
structure PBRSpecularGlossiness where
  diffuseFactor : List ℚ
  specularFactor : List ℚ
  glossinessFactor : ℚ
  diffuseTexture : Option TexBinding
  specularGlossinessTexture : Option TexBinding
deriving DecidableEq

/-- The per-material `KHR_materials_specular` record. -/
structure Specular where
  specularFactor : ℚ
  specularColorFactor : List ℚ
  specularTexture : Option TexBinding
deriving DecidableEq

/-- The per-material `KHR_materials_ior` record. -/
structure IORRecord where
  ior : ℚ
deriving DecidableEq

/-- A material: core metal/rough PBR fields plus the extension records the
converter reads and writes, as a closed typed map (one optional field per
extension name). -/
structure Material where
  baseColorFactor : List ℚ
  metallicFactor : ℚ
  roughnessFactor : ℚ
  baseColorTexture : Option TexBinding
  metallicRoughnessTexture : Option TexBinding
  specGloss : Option PBRSpecularGlossiness
  iorExt : Option IORRecord
  specularExt : Option Specular
deriving DecidableEq

/-- A document: its materials, a texture arena (`none` marks a disposed slot),
and the names of the extensions declared as used. -/
structure Document where
  materials : List Material
  textures : List (Option Texture)
  extensionsUsed : List String

def specGlossName : String := "KHR_materials_pbrSpecularGlossiness"

def iorName : String := "KHR_materials_ior"

def specularName : String := "KHR_materials_specular"

/-- Fetch the image of a live texture in the arena. -/
def getImage (ts : List (Option Texture)) (t : ℕ) : Option Image :=
  match ts[t]? with
  | some (some tex) => some tex.image
  | _ => none

/-- Fallback image used to totalize lookups; never reached on well-formed input. -/
def defaultImage : Image :=
  { width := 0, height := 0, px := fun _ _ _ => 0 }

/-- Modelled from the spec: `doc.createExtension` registers an extension on the
document, adding it to the declared-extensions list when it is not already
there (creating an already-registered extension returns the existing instance
and changes nothing). -/
def createExtensionUsed (exts : List String) (name : String) : List String :=
  if name ∈ exts then exts else exts ++ [name]

/-- Modelled from the spec: `rewriteTexture` (in `./utils`, outside the given
sources) produces an output image of identical width and height by invoking the
rewrite function once per pixel; the destination pixel starts as a copy of the
source pixel and the function overwrites selected channels (the source is not
mutated, no cross-pixel state). -/
def rewriteTexture (src : Image) (fn : Pixel → Pixel) : Image :=
  { width := src.width, height := src.height, px := fun i j => fn (src.px i j) }

/-- The per-pixel rewrite for the generated specular texture: overwrite channel
3 with 255 (remove glossiness), keep channels 0-2. -/
def specularRewrite (p : Pixel) : Pixel :=
  fun c => if c = 3 then 255 else p c

/-- The per-pixel rewrite for the generated metallic-roughness texture: channel
0 := 0, channel 1 := 255 − round(alpha · glossinessFactor), channel 2 := 0,
channel 3 := 255. -/
def metalRoughRewrite (glossinessFactor : ℚ) (p : Pixel) : Pixel :=
  fun c =>
    if c = 0 then 0
    else if c = 1 then 255 - round ((p 3 : ℚ) * glossinessFactor)
    else if c = 2 then 0
    else 255

/-- Modelled from the spec: `doc.createTexture` appends a fresh texture to the
arena and returns it (here: the new arena and the texture's id). -/
def createTexture (ts : List (Option Texture)) (img : Image) : List (Option Texture) × ℕ :=
  (ts ++ [some ⟨img⟩], ts.length)

/-- Insert into the cleanup set with `Set`-like deduplication; `none` models the
JavaScript `null` entry produced by an unbound texture slot. -/
def addInput (s : List (Option ℕ)) (t : Option ℕ) : List (Option ℕ) :=
  if t ∈ s then s else s ++ [t]

/-- State threaded through the per-material loop: the texture arena and the
document-scoped cleanup set of input textures. -/
structure ConvState where
  textures : List (Option Texture)
  inputTextures : List (Option ℕ)

/-- One iteration of the per-material loop of `metalRough`: skip materials
without a spec/gloss record; otherwise build the specular record, stash the
input textures, assign the scalar factors and extension records, rebind the
diffuse texture, decompose the combined specular-glossiness texture (or fold
glossiness into scalars), and detach the spec/gloss record. -/
def convertMaterial (st : ConvState) (material : Material) : ConvState × Material :=
  match material.specGloss with
  | none => (st, material)
  | some specGloss =>
    let specular0 : Specular :=
      { specularFactor := 1
        specularColorFactor := specGloss.specularFactor
        specularTexture := none }
    let inputs :=
      addInput (addInput (addInput st.inputTextures
        (specGloss.specularGlossinessTexture.map TexBinding.tex))
        (material.baseColorTexture.map TexBinding.tex))
        (material.metallicRoughnessTexture.map TexBinding.tex)
    let m1 : Material :=
      { material with
        baseColorFactor := specGloss.diffuseFactor
        metallicFactor := 0
        roughnessFactor := 1
        iorExt := some ⟨1000⟩ }
    let m2 : Material :=
      match specGloss.diffuseTexture with
      | some db => { m1 with baseColorTexture := some db }
      | none => m1
    match specGloss.specularGlossinessTexture with
    | some sgb =>
      let srcImage := (getImage st.textures sgb.tex).getD defaultImage
      let r1 := createTexture st.textures (rewriteTexture srcImage specularRewrite)
      let specular1 : Specular :=
        { specular0 with specularTexture := some ⟨r1.2, sgb.texCoord, sgb.sampler⟩ }
      let r2 := createTexture r1.1
        (rewriteTexture srcImage (metalRoughRewrite specGloss.glossinessFactor))
      let m3 : Material :=
        { m2 with
          metallicRoughnessTexture := some ⟨r2.2, sgb.texCoord, sgb.sampler⟩
          specularExt := some specular1
          specGloss := none }
      (⟨r2.1, inputs⟩, m3)
    | none =>
      let specular1 : Specular :=
        { specular0 with specularColorFactor := specGloss.specularFactor }
      let m3 : Material :=
        { m2 with
          roughnessFactor := 1 - specGloss.glossinessFactor
          specularExt := some specular1
          specGloss := none }
      (⟨st.textures, inputs⟩, m3)

/-- The per-material loop, threading the arena and the cleanup set in document
order. -/
def convertMaterials (st : ConvState) : List Material → ConvState × List Material
  | [] => (st, [])
  | m :: ms =>
    let r := convertMaterial st m
    let rs := convertMaterials r.1 ms
    (rs.1, r.2 :: rs.2)

/-- The texture ids referenced by a material's live bindings (its own slots and
the slots of its attached extension records). -/
def Material.texRefs (m : Material) : List ℕ :=
  (m.baseColorTexture.map TexBinding.tex).toList ++
  (m.metallicRoughnessTexture.map TexBinding.tex).toList ++
  (match m.specGloss with
   | some sg => (sg.diffuseTexture.map TexBinding.tex).toList ++
       (sg.specularGlossinessTexture.map TexBinding.tex).toList
   | none => []) ++
  (match m.specularExt with
   | some sp => (sp.specularTexture.map TexBinding.tex).toList
   | none => [])

/-- Modelled from the spec: `texture.listParents().length` — the document root
that owns every texture counts as one parent, plus one parent per material
binding that references the texture. -/
def parentCount (mats : List Material) (t : ℕ) : ℕ :=
  1 + (mats.map (fun m => m.texRefs.count t)).sum

/-- One step of the orphan-cleanup loop: skip `null` entries; dispose a texture
exactly when its current parent count is one (only the root still holds it). -/
def cleanupStep (mats : List Material) (ts : List (Option Texture)) (o : Option ℕ) :
    List (Option Texture) :=
  match o with
  | some t => if parentCount mats t = 1 then ts.set t none else ts
  | none => ts

/-- The orphan-cleanup pass over the deduplicated cleanup set. -/
def cleanupTextures (mats : List Material) (inputs : List (Option ℕ))
    (ts : List (Option Texture)) : List (Option Texture) :=
  inputs.foldl (cleanupStep mats) ts

/-- The warning emitted when the document does not declare the spec/gloss
extension. -/
def warnMsg : String :=
  "metalRough: Extension " ++ specGlossName ++ " not found on given document."

/-- The debug message emitted on completion. -/
def doneMsg : String := "metalRough: Complete."

/-- The `metalRough` transform together with the messages it logs: early return
when the spec/gloss extension is not declared; otherwise register the IOR,
specular and spec/gloss extensions, convert every material, dispose the
spec/gloss extension registry (removing it from the declared list), and run the
orphan cleanup. -/
def metalRoughRun (doc : Document) : Document × List String :=
  if specGlossName ∈ doc.extensionsUsed then
    let exts1 := createExtensionUsed (createExtensionUsed
      (createExtensionUsed doc.extensionsUsed iorName) specularName) specGlossName
    let r := convertMaterials ⟨doc.textures, []⟩ doc.materials
    let exts2 := exts1.filter (fun n => n ≠ specGlossName)
    let ts := cleanupTextures r.2 r.1.inputTextures r.1.textures
    (⟨r.2, ts, exts2⟩, [doneMsg])
  else
    (doc, [warnMsg])

/-- The document produced by one run of the converter. -/
def metalRough (doc : Document) : Document :=
  (metalRoughRun doc).1

/-! ### Lemmas about a single material conversion -/

theorem convertMaterial_skip (st : ConvState) (m : Material) (h : m.specGloss = none) :
    convertMaterial st m = (st, m) := by
  simp [convertMaterial, h]

theorem convertMaterial_specGloss (st : ConvState) (m : Material) :
    ((convertMaterial st m).2).specGloss = none := by
  rcases hm : m.specGloss with _ | sg
  · simp [convertMaterial, hm]
  · rcases hd : sg.diffuseTexture with _ | db <;>
      rcases hs : sg.specularGlossinessTexture with _ | sgb <;>
        simp [convertMaterial, hm, hd, hs]

theorem convertMaterial_metallicFactor (st : ConvState) (m : Material)
    (sg : PBRSpecularGlossiness) (hm : m.specGloss = some sg) :
    ((convertMaterial st m).2).metallicFactor = 0 := by
  rcases hd : sg.diffuseTexture with _ | db <;>
    rcases hs : sg.specularGlossinessTexture with _ | sgb <;>
      simp [convertMaterial, hm, hd, hs]

theorem convertMaterial_baseColorFactor (st : ConvState) (m : Material)
    (sg : PBRSpecularGlossiness) (hm : m.specGloss = some sg) :
    ((convertMaterial st m).2).baseColorFactor = sg.diffuseFactor := by
  rcases hd : sg.diffuseTexture with _ | db <;>
    rcases hs : sg.specularGlossinessTexture with _ | sgb <;>
      simp [convertMaterial, hm, hd, hs]

theorem convertMaterial_iorExt (st : ConvState) (m : Material)
    (sg : PBRSpecularGlossiness) (hm : m.specGloss = some sg) :
    ((convertMaterial st m).2).iorExt = some ⟨1000⟩ := by
  rcases hd : sg.diffuseTexture with _ | db <;>
    rcases hs : sg.specularGlossinessTexture with _ | sgb <;>
      simp [convertMaterial, hm, hd, hs]

theorem convertMaterial_roughness_noTex (st : ConvState) (m : Material)
    (sg : PBRSpecularGlossiness) (hm : m.specGloss = some sg)
    (hs : sg.specularGlossinessTexture = none) :
    ((convertMaterial st m).2).roughnessFactor = 1 - sg.glossinessFactor := by
  rcases hd : sg.diffuseTexture with _ | db <;> simp [convertMaterial, hm, hd, hs]

theorem convertMaterial_specular_noTex (st : ConvState) (m : Material)
    (sg : PBRSpecularGlossiness) (hm : m.specGloss = some sg)
    (hs : sg.specularGlossinessTexture = none) :
    ((convertMaterial st m).2).specularExt = some ⟨1, sg.specularFactor, none⟩ := by
  rcases hd : sg.diffuseTexture with _ | db <;> simp [convertMaterial, hm, hd, hs]

theorem convertMaterial_roughness_tex (st : ConvState) (m : Material)
    (sg : PBRSpecularGlossiness) (sgb : TexBinding) (hm : m.specGloss = some sg)
    (hs : sg.specularGlossinessTexture = some sgb) :
    ((convertMaterial st m).2).roughnessFactor = 1 := by
  rcases hd : sg.diffuseTexture with _ | db <;> simp [convertMaterial, hm, hd, hs]

theorem convertMaterial_baseColorTexture (st : ConvState) (m : Material)
    (sg : PBRSpecularGlossiness) (db : TexBinding) (hm : m.specGloss = some sg)
    (hd : sg.diffuseTexture = some db) :
    ((convertMaterial st m).2).baseColorTexture = some db := by
  rcases hs : sg.specularGlossinessTexture with _ | sgb <;>
    simp [convertMaterial, hm, hd, hs]

theorem convertMaterial_textures_len (st : ConvState) (m : Material) :
    st.textures.length ≤ ((convertMaterial st m).1).textures.length := by
  rcases hm : m.specGloss with _ | sg
  · simp [convertMaterial, hm]
  · rcases hd : sg.diffuseTexture with _ | db <;>
      rcases hs : sg.specularGlossinessTexture with _ | sgb <;>
        simp [convertMaterial, createTexture, hm, hd, hs]

theorem convertMaterial_textures_agree (st : ConvState) (m : Material) (t : ℕ)
    (ht : t < st.textures.length) :
    ((convertMaterial st m).1).textures[t]? = st.textures[t]? := by
  rcases hm : m.specGloss with _ | sg
  · simp [convertMaterial, hm]
  · rcases hd : sg.diffuseTexture with _ | db <;>
      rcases hs : sg.specularGlossinessTexture with _ | sgb <;>
        simp only [convertMaterial, createTexture, hm, hd, hs]
    · rw [List.getElem?_append_left (by simp; omega),
        List.getElem?_append_left ht]
    · rw [List.getElem?_append_left (by simp; omega),
        List.getElem?_append_left ht]

/-- When a combined specular-glossiness texture is bound and resolves to image
`I` in the current arena, `convertMaterial` creates the specular texture at the
next arena id and the metallic-roughness texture right after it, binds them on
the specular record and the material, and their images are the two rewrites of
`I`. -/
theorem convertMaterial_tex (st : ConvState) (m : Material)
    (sg : PBRSpecularGlossiness) (sgb : TexBinding) (I : Image)
    (hm : m.specGloss = some sg) (hs : sg.specularGlossinessTexture = some sgb)
    (hI : getImage st.textures sgb.tex = some I) :
    ((convertMaterial st m).2).specularExt =
      some ⟨1, sg.specularFactor,
        some ⟨st.textures.length, sgb.texCoord, sgb.sampler⟩⟩ ∧
    ((convertMaterial st m).2).metallicRoughnessTexture =
      some ⟨st.textures.length + 1, sgb.texCoord, sgb.sampler⟩ ∧
    ((convertMaterial st m).1).textures =
      (st.textures ++ [some ⟨rewriteTexture I specularRewrite⟩]) ++
        [some ⟨rewriteTexture I (metalRoughRewrite sg.glossinessFactor)⟩] := by
  have hsrc : (getImage st.textures sgb.tex).getD defaultImage = I := by
    rw [hI]; rfl
  rcases hd : sg.diffuseTexture with _ | db <;>
    simp [convertMaterial, createTexture, hm, hd, hs, hsrc]

theorem getImage_concat_left (ts : List (Option Texture)) (x : Option Texture)
    (t : ℕ) (ht : t < ts.length) : getImage (ts ++ [x]) t = getImage ts t := by
  simp [getImage, List.getElem?_append_left ht]

theorem getImage_concat_length (ts : List (Option Texture)) (img : Image) :
    getImage (ts ++ [some ⟨img⟩]) ts.length = some img := by
  simp [getImage, List.getElem?_concat_length]

/-! ### Lemmas about the per-material loop -/

theorem convertMaterials_textures_len (st : ConvState) (ms : List Material) :
    st.textures.length ≤ ((convertMaterials st ms).1).textures.length := by
  induction ms generalizing st with
  | nil => simp [convertMaterials]
  | cons m ms ih =>
    exact le_trans (convertMaterial_textures_len st m)
      (ih (convertMaterial st m).1)

theorem convertMaterials_textures_agree (st : ConvState) (ms : List Material)
    (t : ℕ) (ht : t < st.textures.length) :
    ((convertMaterials st ms).1).textures[t]? = st.textures[t]? := by
  induction ms generalizing st with
  | nil => simp [convertMaterials]
  | cons m ms ih =>
    have h1 := convertMaterial_textures_agree st m t ht
    have h2 := ih (convertMaterial st m).1
      (lt_of_lt_of_le ht (convertMaterial_textures_len st m))
    calc ((convertMaterials st (m :: ms)).1).textures[t]?
        = ((convertMaterials (convertMaterial st m).1 ms).1).textures[t]? := rfl
      _ = ((convertMaterial st m).1).textures[t]? := h2
      _ = st.textures[t]? := h1

theorem convertMaterials_length (st : ConvState) (ms : List Material) :
    ((convertMaterials st ms).2).length = ms.length := by
  induction ms generalizing st with
  | nil => simp [convertMaterials]
  | cons m ms ih => simp [convertMaterials, ih]

theorem convertMaterials_all_specGloss_none (st : ConvState) (ms : List Material) :
    ∀ m' ∈ (convertMaterials st ms).2, m'.specGloss = none := by
  induction ms generalizing st with
  | nil => simp [convertMaterials]
  | cons m ms ih =>
    intro m' hm'
    simp only [convertMaterials, List.mem_cons] at hm'
    rcases hm' with h | h
    · rw [h]; exact convertMaterial_specGloss st m
    · exact ih (convertMaterial st m).1 m' h

/-- The `k`-th output material of the loop is the single-material conversion of
the `k`-th input material at some intermediate state whose arena extends the
initial one, and whose own output arena is a prefix of the loop's final
arena. -/
theorem convertMaterials_split (st : ConvState) (ms : List Material) (k : ℕ)
    (m : Material) (h : ms[k]? = some m) :
    ∃ st' : ConvState,
      ((convertMaterials st ms).2)[k]? = some ((convertMaterial st' m).2) ∧
      st.textures.length ≤ st'.textures.length ∧
      (∀ t, t < st.textures.length → st'.textures[t]? = st.textures[t]?) ∧
      (∀ t, t < ((convertMaterial st' m).1).textures.length →
        ((convertMaterials st ms).1).textures[t]? =
          ((convertMaterial st' m).1).textures[t]?) := by
  induction ms generalizing st k with
  | nil => simp at h
  | cons m0 ms ih =>
    rcases k with _ | k
    · have hm0 : m0 = m := by simpa using h
      subst hm0
      refine ⟨st, by simp [convertMaterials], le_refl _, fun t _ => rfl, ?_⟩
      intro t ht
      exact convertMaterials_textures_agree (convertMaterial st m0).1 ms t ht
    · simp only [List.getElem?_cons_succ] at h
      obtain ⟨st', h1, h2, h3, h4⟩ := ih (convertMaterial st m0).1 k h
      refine ⟨st', ?_, ?_, ?_, h4⟩
      · simpa [convertMaterials] using h1
      · exact le_trans (convertMaterial_textures_len st m0) h2
      · intro t ht
        rw [h3 t (lt_of_lt_of_le ht (convertMaterial_textures_len st m0))]
        exact convertMaterial_textures_agree st m0 t ht

theorem convertMaterials_skip_all (st : ConvState) (ms : List Material)
    (h : ∀ m ∈ ms, m.specGloss = none) :
    convertMaterials st ms = (st, ms) := by
  induction ms generalizing st with
  | nil => rfl
  | cons m ms ih =>
    have hm : convertMaterial st m = (st, m) :=
      convertMaterial_skip st m (h m (by simp))
    simp [convertMaterials, hm, ih st (fun x hx => h x (by simp [hx]))]

/-! ### Lemmas about parent counts and the cleanup pass -/

theorem le_sum_of_mem_nat {l : List ℕ} {x : ℕ} (h : x ∈ l) : x ≤ l.sum := by
  induction l with
  | nil => simp at h
  | cons y l ih =>
    rcases List.mem_cons.mp h with h | h
    · subst h; simp [List.sum_cons]
    · calc x ≤ l.sum := ih h
        _ ≤ y + l.sum := Nat.le_add_left _ _
        _ = (y :: l).sum := by simp

theorem parentCount_ne_one_of_ref (mats : List Material) (k t : ℕ) (m : Material)
    (hk : mats[k]? = some m) (ht : t ∈ m.texRefs) : parentCount mats t ≠ 1 := by
  have hmem : m ∈ mats := List.getElem?_mem hk
  have h1 : 0 < m.texRefs.count t := List.count_pos_iff.mpr ht
  have h2 : m.texRefs.count t ∈ mats.map (fun m => m.texRefs.count t) :=
    List.mem_map_of_mem _ hmem
  have h3 : m.texRefs.count t ≤ (mats.map (fun m => m.texRefs.count t)).sum :=
    le_sum_of_mem_nat h2
  simp only [parentCount]
  omega

theorem texRefs_of_metallicRoughness (m : Material) (b : TexBinding)
    (h : m.metallicRoughnessTexture = some b) : b.tex ∈ m.texRefs := by
  rcases hg : m.specGloss with _ | sg <;> rcases hp : m.specularExt with _ | sp <;>
    simp [Material.texRefs, h, hg, hp]

theorem texRefs_of_specular (m : Material) (sp : Specular) (b : TexBinding)
    (h : m.specularExt = some sp) (hb : sp.specularTexture = some b) :
    b.tex ∈ m.texRefs := by
  rcases hg : m.specGloss with _ | sg <;> simp [Material.texRefs, h, hb, hg]

theorem cleanupStep_agree (mats : List Material) (ts : List (Option Texture))
    (o : Option ℕ) (t : ℕ) (h : parentCount mats t ≠ 1) :
    (cleanupStep mats ts o)[t]? = ts[t]? := by
  rcases o with _ | t'
  · rfl
  · simp only [cleanupStep]
    by_cases hp : parentCount mats t' = 1
    · rw [if_pos hp]
      exact List.getElem?_set_ne (fun he => h (by rw [← he]; exact hp))
    · rw [if_neg hp]

theorem cleanupTextures_agree (mats : List Material) (inputs : List (Option ℕ))
    (ts : List (Option Texture)) (t : ℕ) (h : parentCount mats t ≠ 1) :
    (cleanupTextures mats inputs ts)[t]? = ts[t]? := by
  induction inputs generalizing ts with
  | nil => rfl
  | cons o inputs ih =>
    calc (cleanupTextures mats (o :: inputs) ts)[t]?
        = (cleanupTextures mats inputs (cleanupStep mats ts o))[t]? := rfl
      _ = (cleanupStep mats ts o)[t]? := ih _
      _ = ts[t]? := cleanupStep_agree mats ts o t h

theorem cleanupStep_none (mats : List Material) (ts : List (Option Texture))
    (o : Option ℕ) (t : ℕ) (h : getImage ts t = none) :
    getImage (cleanupStep mats ts o) t = none := by
  rcases o with _ | t'
  · exact h
  · simp only [cleanupStep]
    by_cases hp : parentCount mats t' = 1
    · rw [if_pos hp]
      by_cases he : t' = t
      · subst he
        simp only [getImage]
        rcases Nat.lt_or_ge t' ts.length with hlt | hge
        · rw [List.getElem?_set_self hlt]
        · rw [List.getElem?_eq_none (by simpa using hge)]
      · simpa only [getImage, List.getElem?_set_ne he] using h
    · rw [if_neg hp]; exact h

theorem cleanupTextures_none (mats : List Material) (inputs : List (Option ℕ))
    (ts : List (Option Texture)) (t : ℕ) (h : getImage ts t = none) :
    getImage (cleanupTextures mats inputs ts) t = none := by
  induction inputs generalizing ts with
  | nil => exact h
  | cons o inputs ih => exact ih _ (cleanupStep_none mats ts o t h)

theorem cleanupTextures_disposes (mats : List Material) (inputs : List (Option ℕ))
    (ts : List (Option Texture)) (t : ℕ) (hmem : some t ∈ inputs)
    (hp : parentCount mats t = 1) :
    getImage (cleanupTextures mats inputs ts) t = none := by
  induction inputs generalizing ts with
  | nil => simp at hmem
  | cons o inputs ih =>
    by_cases ho : o = some t
    · subst ho
      have hstep : getImage (cleanupStep mats ts (some t)) t = none := by
        simp only [cleanupStep, if_pos hp, getImage]
        rcases Nat.lt_or_ge t ts.length with hlt | hge
        · rw [List.getElem?_set_self hlt]
        · rw [List.getElem?_eq_none (by simpa using hge)]
      exact cleanupTextures_none mats inputs _ t hstep
    · have hmem' : some t ∈ inputs := by
        rcases List.mem_cons.mp hmem with h | h
        · exact absurd h.symm ho
        · exact h
      exact ih _ hmem'

/-! ### Lemmas about the declared-extensions list -/

theorem mem_createExtensionUsed_self (exts : List String) (n : String) :
    n ∈ createExtensionUsed exts n := by
  simp only [createExtensionUsed]
  by_cases h : n ∈ exts
  · rwa [if_pos h]
  · rw [if_neg h]; simp

theorem mem_createExtensionUsed_of_mem (exts : List String) (n s : String)
    (h : n ∈ exts) : n ∈ createExtensionUsed exts s := by
  simp only [createExtensionUsed]
  by_cases hs : s ∈ exts
  · rwa [if_pos hs]
  · rw [if_neg hs]; simp [h]

/-! ### Unfolding the two branches of the transform -/

theorem metalRoughRun_neg (doc : Document) (h : specGlossName ∉ doc.extensionsUsed) :
    metalRoughRun doc = (doc, [warnMsg]) := by
  simp [metalRoughRun, h]

theorem metalRoughRun_pos (doc : Document) (h : specGlossName ∈ doc.extensionsUsed) :
    metalRoughRun doc =
      (⟨(convertMaterials ⟨doc.textures, []⟩ doc.materials).2,
        cleanupTextures (convertMaterials ⟨doc.textures, []⟩ doc.materials).2
          ((convertMaterials ⟨doc.textures, []⟩ doc.materials).1).inputTextures
          ((convertMaterials ⟨doc.textures, []⟩ doc.materials).1).textures,
        (createExtensionUsed (createExtensionUsed
          (createExtensionUsed doc.extensionsUsed iorName) specularName)
            specGlossName).filter (fun n => n ≠ specGlossName)⟩,
       [doneMsg]) := by
  simp [metalRoughRun, h]

theorem metalRough_not_used_after (doc : Document) :
    specGlossName ∉ (metalRough doc).extensionsUsed := by
  by_cases h : specGlossName ∈ doc.extensionsUsed
  · rw [metalRough, metalRoughRun_pos doc h]
    simp [List.mem_filter]
  · rw [metalRough, metalRoughRun_neg doc h]
    exact h

/-! ### Concrete example documents -/

/-- A 2×2 test image with distinct channel values. -/
def imgW : Image := ⟨2, 2, fun i j c => (i : ℤ) + 2 * j + c⟩

/-- A spec/gloss record with scalar data only. -/
def sgScalar : PBRSpecularGlossiness := ⟨[1, 0, 0, 1], [1/2, 1/2, 1/2], 4/5, none, none⟩

def matScalar : Material := ⟨[1, 1, 1, 1], 1, 0, none, none, some sgScalar, none, none⟩

def docScalar : Document := ⟨[matScalar], [], [specGlossName]⟩

/-- A spec/gloss record binding a diffuse texture and a combined
specular-glossiness texture. -/
def sgTex : PBRSpecularGlossiness :=
  ⟨[1, 0, 0, 1], [1/2, 1/2, 1/2], 4/5, some ⟨0, 1, 2⟩, some ⟨1, 3, 4⟩⟩

def matTex : Material := ⟨[1, 1, 1, 1], 1, 0, some ⟨2, 0, 0⟩, none, some sgTex, none, none⟩

def docTex : Document :=
  ⟨[matTex], [some ⟨imgW⟩, some ⟨imgW⟩, some ⟨imgW⟩], [specGlossName]⟩

/-- A material without a spec/gloss record. -/
def matPlain : Material := ⟨[1, 1, 1, 1], 1, 1, none, none, none, none, none⟩

def docPlain : Document := ⟨[matPlain], [], [specGlossName]⟩

/-- A document that does not declare the spec/gloss extension. -/
def docUndeclared : Document := ⟨[matScalar], [], ["KHR_texture_transform"]⟩

/-! ### The claims -/

/-- Claim C6: if the document does not declare usage of the spec/gloss extension, the
conversion logs a warning and returns, leaving the document completely
unchanged. -/
theorem undeclared_noop (doc : Document) (h : specGlossName ∉ doc.extensionsUsed) :
    metalRoughRun doc = (doc, [warnMsg]) :=
  metalRoughRun_neg doc h

theorem undeclared_noop_witness :
    specGlossName ∉ docUndeclared.extensionsUsed ∧
    metalRoughRun docUndeclared = (docUndeclared, [warnMsg]) :=
  ⟨by decide, undeclared_noop docUndeclared (by decide)⟩

/-- Claim C4: running the converter twice yields the same final document state as
running it once; the second run is a no-op because the spec/gloss extension is
no longer declared after the first run. -/
theorem metalRough_idempotent (doc : Document) :
    metalRough (metalRough doc) = metalRough doc := by
  have h := metalRough_not_used_after doc
  show (metalRoughRun (metalRough doc)).1 = metalRough doc
  rw [metalRoughRun_neg _ h]

/-- Claim C3: after a conversion run on a document declaring the spec/gloss
extension, no material retains a spec/gloss record and the document no longer
declares that extension as used (also when zero materials carried the
record). -/
theorem specGloss_removed_invariant (doc : Document)
    (h : specGlossName ∈ doc.extensionsUsed) :
    (∀ m' ∈ (metalRough doc).materials, m'.specGloss = none) ∧
    specGlossName ∉ (metalRough doc).extensionsUsed := by
  constructor
  · rw [metalRough, metalRoughRun_pos doc h]
    exact convertMaterials_all_specGloss_none _ _
  · exact metalRough_not_used_after doc

theorem specGloss_removed_invariant_witness :
    specGlossName ∈ docPlain.extensionsUsed ∧
    ((∀ m' ∈ (metalRough docPlain).materials, m'.specGloss = none) ∧
     specGlossName ∉ (metalRough docPlain).extensionsUsed) :=
  ⟨by simp [docPlain], specGloss_removed_invariant docPlain (by simp [docPlain])⟩

/-- Claim C7: a material that does not carry a spec/gloss record is untouched by the
conversion run: its entire state afterwards equals its state before. -/
theorem untouched_material_frame (doc : Document) (k : ℕ) (m : Material)
    (hk : doc.materials[k]? = some m) (hm : m.specGloss = none) :
    (metalRough doc).materials[k]? = some m := by
  by_cases h : specGlossName ∈ doc.extensionsUsed
  · rw [metalRough, metalRoughRun_pos doc h]
    obtain ⟨st', h1, _, _, _⟩ :=
      convertMaterials_split ⟨doc.textures, []⟩ doc.materials k m hk
    have he : (convertMaterial st' m).2 = m := by
      rw [convertMaterial_skip st' m hm]
    rw [he] at h1
    exact h1
  · rw [metalRough, metalRoughRun_neg doc h]
    exact hk

theorem untouched_material_frame_witness :
    docPlain.materials[0]? = some matPlain ∧ matPlain.specGloss = none ∧
    (metalRough docPlain).materials[0]? = some matPlain :=
  ⟨rfl, rfl, untouched_material_frame docPlain 0 matPlain rfl rfl⟩

/-- Claim C10: a run on a declaring document adds the IOR and specular extensions to
the declared-extensions state and never disposes them; both are declared
afterwards even when zero materials carried a spec/gloss record, in which case
no material or texture is modified. -/
theorem ior_specular_declared (doc : Document)
    (h : specGlossName ∈ doc.extensionsUsed) :
    iorName ∈ (metalRough doc).extensionsUsed ∧
    specularName ∈ (metalRough doc).extensionsUsed ∧
    ((∀ m ∈ doc.materials, m.specGloss = none) →
      (metalRough doc).materials = doc.materials ∧
      (metalRough doc).textures = doc.textures) := by
  rw [metalRough, metalRoughRun_pos doc h]
  refine ⟨?_, ?_, ?_⟩
  · rw [List.mem_filter]
    exact ⟨mem_createExtensionUsed_of_mem _ _ _
      (mem_createExtensionUsed_of_mem _ _ _ (mem_createExtensionUsed_self _ _)),
      by decide⟩
  · rw [List.mem_filter]
    exact ⟨mem_createExtensionUsed_of_mem _ _ _ (mem_createExtensionUsed_self _ _),
      by decide⟩
  · intro hall
    rw [convertMaterials_skip_all ⟨doc.textures, []⟩ doc.materials hall]
    exact ⟨rfl, rfl⟩

theorem ior_specular_declared_witness :
    specGlossName ∈ docPlain.extensionsUsed ∧
    (iorName ∈ (metalRough docPlain).extensionsUsed ∧
     specularName ∈ (metalRough docPlain).extensionsUsed ∧
     ((∀ m ∈ docPlain.materials, m.specGloss = none) →
       (metalRough docPlain).materials = docPlain.materials ∧
       (metalRough docPlain).textures = docPlain.textures)) :=
  ⟨by simp [docPlain], ior_specular_declared docPlain (by simp [docPlain])⟩

/-- Claim C1: scalar-only conversion — roughness = 1 − glossiness, specular color
factor = input specular factor, metallic = 0, base color = input diffuse
factor, IOR = 1000, specular factor = 1. -/
theorem scalar_conversion_factors (doc : Document) (k : ℕ) (m : Material)
    (sg : PBRSpecularGlossiness)
    (hdecl : specGlossName ∈ doc.extensionsUsed)
    (hk : doc.materials[k]? = some m)
    (hm : m.specGloss = some sg)
    (hs : sg.specularGlossinessTexture = none) :
    ∃ m' : Material, (metalRough doc).materials[k]? = some m' ∧
      m'.roughnessFactor = 1 - sg.glossinessFactor ∧
      (∃ sp : Specular, m'.specularExt = some sp ∧
        sp.specularColorFactor = sg.specularFactor ∧
        sp.specularFactor = 1 ∧ sp.specularTexture = none) ∧
      m'.metallicFactor = 0 ∧
      m'.baseColorFactor = sg.diffuseFactor ∧
      m'.iorExt = some ⟨1000⟩ := by
  rw [metalRough, metalRoughRun_pos doc hdecl]
  obtain ⟨st', h1, _, _, _⟩ :=
    convertMaterials_split ⟨doc.textures, []⟩ doc.materials k m hk
  exact ⟨(convertMaterial st' m).2, h1,
    convertMaterial_roughness_noTex st' m sg hm hs,
    ⟨⟨1, sg.specularFactor, none⟩, convertMaterial_specular_noTex st' m sg hm hs,
      rfl, rfl, rfl⟩,
    convertMaterial_metallicFactor st' m sg hm,
    convertMaterial_baseColorFactor st' m sg hm,
    convertMaterial_iorExt st' m sg hm⟩

theorem scalar_conversion_factors_witness :
    specGlossName ∈ docScalar.extensionsUsed ∧
    docScalar.materials[0]? = some matScalar ∧
    matScalar.specGloss = some sgScalar ∧
    sgScalar.specularGlossinessTexture = none ∧
    (∃ m' : Material, (metalRough docScalar).materials[0]? = some m' ∧
      m'.roughnessFactor = 1 - sgScalar.glossinessFactor ∧
      (∃ sp : Specular, m'.specularExt = some sp ∧
        sp.specularColorFactor = sgScalar.specularFactor ∧
        sp.specularFactor = 1 ∧ sp.specularTexture = none) ∧
      m'.metallicFactor = 0 ∧
      m'.baseColorFactor = sgScalar.diffuseFactor ∧
      m'.iorExt = some ⟨1000⟩) :=
  ⟨by simp [docScalar], rfl, rfl, rfl,
    scalar_conversion_factors docScalar 0 matScalar sgScalar
      (by simp [docScalar]) rfl rfl rfl⟩

/-- Claim C8: metallic factor 0 and roughness factor 1 are assigned before the
branch-specific refinement; when a combined specular-glossiness texture is
bound, the scalar roughness factor remains 1 after conversion. -/
theorem placeholder_factors_with_texture (doc : Document) (k : ℕ) (m : Material)
    (sg : PBRSpecularGlossiness) (sgb : TexBinding)
    (hdecl : specGlossName ∈ doc.extensionsUsed)
    (hk : doc.materials[k]? = some m)
    (hm : m.specGloss = some sg)
    (hs : sg.specularGlossinessTexture = some sgb) :
    ∃ m' : Material, (metalRough doc).materials[k]? = some m' ∧
      m'.metallicFactor = 0 ∧ m'.roughnessFactor = 1 := by
  rw [metalRough, metalRoughRun_pos doc hdecl]
  obtain ⟨st', h1, _, _, _⟩ :=
    convertMaterials_split ⟨doc.textures, []⟩ doc.materials k m hk
  exact ⟨(convertMaterial st' m).2, h1,
    convertMaterial_metallicFactor st' m sg hm,
    convertMaterial_roughness_tex st' m sg sgb hm hs⟩

theorem placeholder_factors_with_texture_witness :
    specGlossName ∈ docTex.extensionsUsed ∧
    docTex.materials[0]? = some matTex ∧
    matTex.specGloss = some sgTex ∧
    sgTex.specularGlossinessTexture = some ⟨1, 3, 4⟩ ∧
    (∃ m' : Material, (metalRough docTex).materials[0]? = some m' ∧
      m'.metallicFactor = 0 ∧ m'.roughnessFactor = 1) :=
  ⟨by simp [docTex], rfl, rfl, rfl,
    placeholder_factors_with_texture docTex 0 matTex sgTex ⟨1, 3, 4⟩
      (by simp [docTex]) rfl rfl rfl⟩

/-- Claim C9: a bound diffuse texture is rebound as the base-color texture — the very
same texture (same arena id), with the texture-coordinate index and sampler
settings of the input diffuse binding. -/
theorem diffuse_rebound_shared (doc : Document) (k : ℕ) (m : Material)
    (sg : PBRSpecularGlossiness) (db : TexBinding)
    (hdecl : specGlossName ∈ doc.extensionsUsed)
    (hk : doc.materials[k]? = some m)
    (hm : m.specGloss = some sg)
    (hd : sg.diffuseTexture = some db) :
    ∃ (m' : Material) (b : TexBinding),
      (metalRough doc).materials[k]? = some m' ∧
      m'.baseColorTexture = some b ∧ b.tex = db.tex ∧
      b.texCoord = db.texCoord ∧ b.sampler = db.sampler := by
  rw [metalRough, metalRoughRun_pos doc hdecl]
  obtain ⟨st', h1, _, _, _⟩ :=
    convertMaterials_split ⟨doc.textures, []⟩ doc.materials k m hk
  exact ⟨(convertMaterial st' m).2, db, h1,
    convertMaterial_baseColorTexture st' m sg db hm hd, rfl, rfl, rfl⟩

theorem diffuse_rebound_shared_witness :
    specGlossName ∈ docTex.extensionsUsed ∧
    docTex.materials[0]? = some matTex ∧
    matTex.specGloss = some sgTex ∧
    sgTex.diffuseTexture = some ⟨0, 1, 2⟩ ∧
    (∃ (m' : Material) (b : TexBinding),
      (metalRough docTex).materials[0]? = some m' ∧
      m'.baseColorTexture = some b ∧ b.tex = (⟨0, 1, 2⟩ : TexBinding).tex ∧
      b.texCoord = (⟨0, 1, 2⟩ : TexBinding).texCoord ∧
      b.sampler = (⟨0, 1, 2⟩ : TexBinding).sampler) :=
  ⟨by simp [docTex], rfl, rfl, rfl,
    diffuse_rebound_shared docTex 0 matTex sgTex ⟨0, 1, 2⟩
      (by simp [docTex]) rfl rfl rfl⟩

/-- Claim C5: for every texture in the deduplicated cleanup set collected during the
run, the cleanup pass disposes it exactly when its current parent count is one;
a texture with additional live references keeps its arena entry untouched. -/
theorem orphan_cleanup_disposal (doc : Document)
    (hdecl : specGlossName ∈ doc.extensionsUsed) :
    (∀ t : ℕ,
      some t ∈ ((convertMaterials ⟨doc.textures, []⟩ doc.materials).1).inputTextures →
      parentCount (convertMaterials ⟨doc.textures, []⟩ doc.materials).2 t = 1 →
      getImage (metalRough doc).textures t = none) ∧
    (∀ t : ℕ,
      some t ∈ ((convertMaterials ⟨doc.textures, []⟩ doc.materials).1).inputTextures →
      parentCount (convertMaterials ⟨doc.textures, []⟩ doc.materials).2 t ≠ 1 →
      (metalRough doc).textures[t]? =
        ((convertMaterials ⟨doc.textures, []⟩ doc.materials).1).textures[t]?) := by
  rw [metalRough, metalRoughRun_pos doc hdecl]
  constructor
  · intro t hmem hp
    exact cleanupTextures_disposes _ _ _ t hmem hp
  · intro t _ hp
    exact cleanupTextures_agree _ _ _ t hp

theorem orphan_cleanup_disposal_witness :
    specGlossName ∈ docTex.extensionsUsed ∧
    ((∀ t : ℕ,
      some t ∈ ((convertMaterials ⟨docTex.textures, []⟩ docTex.materials).1).inputTextures →
      parentCount (convertMaterials ⟨docTex.textures, []⟩ docTex.materials).2 t = 1 →
      getImage (metalRough docTex).textures t = none) ∧
    (∀ t : ℕ,
      some t ∈ ((convertMaterials ⟨docTex.textures, []⟩ docTex.materials).1).inputTextures →
      parentCount (convertMaterials ⟨docTex.textures, []⟩ docTex.materials).2 t ≠ 1 →
      (metalRough docTex).textures[t]? =
        ((convertMaterials ⟨docTex.textures, []⟩ docTex.materials).1).textures[t]?)) :=
  ⟨by simp [docTex], orphan_cleanup_disposal docTex (by simp [docTex])⟩

theorem specularRewrite_channels (p : Pixel) :
    specularRewrite p 0 = p 0 ∧ specularRewrite p 1 = p 1 ∧
    specularRewrite p 2 = p 2 ∧ specularRewrite p 3 = 255 := by
  refine ⟨?_, ?_, ?_, ?_⟩ <;> simp [specularRewrite]

theorem metalRoughRewrite_channels (g : ℚ) (p : Pixel) :
    metalRoughRewrite g p 0 = 0 ∧
    metalRoughRewrite g p 1 = 255 - round ((p 3 : ℚ) * g) ∧
    metalRoughRewrite g p 2 = 0 ∧ metalRoughRewrite g p 3 = 255 := by
  refine ⟨?_, ?_, ?_, ?_⟩ <;> simp [metalRoughRewrite]

/-- Claim C2: converting a material whose spec/gloss record binds a combined
specular-glossiness texture with source image `I` creates two new textures: a
specular texture whose pixels keep channels 0–2 of `I` and have channel 3 set
to 255, and a metallic-roughness texture whose pixels have channel 0 = 0,
channel 1 = 255 − round(alpha · glossinessFactor), channel 2 = 0 and
channel 3 = 255. -/
theorem combined_texture_decomposition (doc : Document) (k : ℕ) (m : Material)
    (sg : PBRSpecularGlossiness) (sgb : TexBinding) (I : Image)
    (hdecl : specGlossName ∈ doc.extensionsUsed)
    (hk : doc.materials[k]? = some m)
    (hm : m.specGloss = some sg)
    (hs : sg.specularGlossinessTexture = some sgb)
    (hI : getImage doc.textures sgb.tex = some I) :
    ∃ (m' : Material) (sp : Specular) (sb mrb : TexBinding),
      (metalRough doc).materials[k]? = some m' ∧
      m'.specularExt = some sp ∧ sp.specularTexture = some sb ∧
      m'.metallicRoughnessTexture = some mrb ∧
      doc.textures.length ≤ sb.tex ∧ doc.textures.length ≤ mrb.tex ∧
      sb.tex ≠ mrb.tex ∧
      (∃ Ispec : Image, getImage (metalRough doc).textures sb.tex = some Ispec ∧
        ∀ i j : ℕ, Ispec.px i j 0 = I.px i j 0 ∧ Ispec.px i j 1 = I.px i j 1 ∧
          Ispec.px i j 2 = I.px i j 2 ∧ Ispec.px i j 3 = 255) ∧
      (∃ Imr : Image, getImage (metalRough doc).textures mrb.tex = some Imr ∧
        ∀ i j : ℕ, Imr.px i j 0 = 0 ∧
          Imr.px i j 1 = 255 - round ((I.px i j 3 : ℚ) * sg.glossinessFactor) ∧
          Imr.px i j 2 = 0 ∧ Imr.px i j 3 = 255) := by
  obtain ⟨st', h1, hlen, hagree, hpost⟩ :=
    convertMaterials_split ⟨doc.textures, []⟩ doc.materials k m hk
  have htlt : sgb.tex < doc.textures.length := by
    by_contra hge
    rw [getImage, List.getElem?_eq_none (by omega)] at hI
    exact Option.noConfusion hI
  have hI' : getImage st'.textures sgb.tex = some I := by
    rw [getImage, hagree sgb.tex htlt]
    exact hI
  obtain ⟨hspec, hmr, harena⟩ := convertMaterial_tex st' m sg sgb I hm hs hI'
  have hA : getImage ((convertMaterial st' m).1).textures st'.textures.length =
      some (rewriteTexture I specularRewrite) := by
    rw [harena, getImage_concat_left _ _ _ (by simp)]
    exact getImage_concat_length st'.textures _
  have hB : getImage ((convertMaterial st' m).1).textures (st'.textures.length + 1) =
      some (rewriteTexture I (metalRoughRewrite sg.glossinessFactor)) := by
    rw [harena]
    have hl : (st'.textures ++ [some (Texture.mk (rewriteTexture I specularRewrite))]).length =
        st'.textures.length + 1 := by simp
    rw [← hl]
    exact getImage_concat_length _ _
  have hlen2 : st'.textures.length + 2 ≤ ((convertMaterial st' m).1).textures.length := by
    rw [harena]; simp
  have hPA : getImage
      ((convertMaterials ⟨doc.textures, []⟩ doc.materials).1).textures
      st'.textures.length = some (rewriteTexture I specularRewrite) := by
    rw [getImage, hpost st'.textures.length (by omega)]
    exact hA
  have hPB : getImage
      ((convertMaterials ⟨doc.textures, []⟩ doc.materials).1).textures
      (st'.textures.length + 1) =
      some (rewriteTexture I (metalRoughRewrite sg.glossinessFactor)) := by
    rw [getImage, hpost (st'.textures.length + 1) (by omega)]
    exact hB
  have hrefA : st'.textures.length ∈ ((convertMaterial st' m).2).texRefs :=
    texRefs_of_specular _ _ _ hspec rfl
  have hrefB : st'.textures.length + 1 ∈ ((convertMaterial st' m).2).texRefs :=
    texRefs_of_metallicRoughness _ _ hmr
  have hpcA : parentCount (convertMaterials ⟨doc.textures, []⟩ doc.materials).2
      st'.textures.length ≠ 1 :=
    parentCount_ne_one_of_ref _ k _ _ h1 hrefA
  have hpcB : parentCount (convertMaterials ⟨doc.textures, []⟩ doc.materials).2
      (st'.textures.length + 1) ≠ 1 :=
    parentCount_ne_one_of_ref _ k _ _ h1 hrefB
  rw [metalRough, metalRoughRun_pos doc hdecl]
  refine ⟨(convertMaterial st' m).2,
    ⟨1, sg.specularFactor, some ⟨st'.textures.length, sgb.texCoord, sgb.sampler⟩⟩,
    ⟨st'.textures.length, sgb.texCoord, sgb.sampler⟩,
    ⟨st'.textures.length + 1, sgb.texCoord, sgb.sampler⟩,
    h1, hspec, rfl, hmr, hlen, le_trans hlen (Nat.le_succ _),
    by show st'.textures.length ≠ st'.textures.length + 1; omega,
    ⟨rewriteTexture I specularRewrite, ?_, ?_⟩,
    ⟨rewriteTexture I (metalRoughRewrite sg.glossinessFactor), ?_, ?_⟩⟩
  · rw [getImage, cleanupTextures_agree _ _ _ _ hpcA]
    exact hPA
  · intro i j
    exact specularRewrite_channels (I.px i j)
  · rw [getImage, cleanupTextures_agree _ _ _ _ hpcB]
    exact hPB
  · intro i j
    exact metalRoughRewrite_channels sg.glossinessFactor (I.px i j)

theorem combined_texture_decomposition_witness :
    specGlossName ∈ docTex.extensionsUsed ∧
    docTex.materials[0]? = some matTex ∧
    matTex.specGloss = some sgTex ∧
    sgTex.specularGlossinessTexture = some ⟨1, 3, 4⟩ ∧
    getImage docTex.textures 1 = some imgW ∧
    (∃ (m' : Material) (sp : Specular) (sb mrb : TexBinding),
      (metalRough docTex).materials[0]? = some m' ∧
      m'.specularExt = some sp ∧ sp.specularTexture = some sb ∧
      m'.metallicRoughnessTexture = some mrb ∧
      docTex.textures.length ≤ sb.tex ∧ docTex.textures.length ≤ mrb.tex ∧
      sb.tex ≠ mrb.tex ∧
      (∃ Ispec : Image, getImage (metalRough docTex).textures sb.tex = some Ispec ∧
        ∀ i j : ℕ, Ispec.px i j 0 = imgW.px i j 0 ∧ Ispec.px i j 1 = imgW.px i j 1 ∧
          Ispec.px i j 2 = imgW.px i j 2 ∧ Ispec.px i j 3 = 255) ∧
      (∃ Imr : Image, getImage (metalRough docTex).textures mrb.tex = some Imr ∧
        ∀ i j : ℕ, Imr.px i j 0 = 0 ∧
          Imr.px i j 1 = 255 - round ((imgW.px i j 3 : ℚ) * sgTex.glossinessFactor) ∧
          Imr.px i j 2 = 0 ∧ Imr.px i j 3 = 255)) :=
  ⟨by simp [docTex], rfl, rfl, rfl, rfl,
    combined_texture_decomposition docTex 0 matTex sgTex ⟨1, 3, 4⟩ imgW
      (by simp [docTex]) rfl rfl rfl rfl⟩

end MetalRough
